import Mathlib

/-!
Verification development for nerdle_solve_in_2.py.

The program loads a list of 8-character Nerdle equations, and for every
candidate first guess computes the feedback pattern it produces against
every candidate secret, counts the distinct non-all-green patterns, derives
a probability of solving in exactly two guesses, ranks all guesses by that
probability and writes a ranked CSV table.

The embedding below models characters as natural numbers (the `uint8` ASCII
codes the program works with), words as `List Nat`, and the NumPy arrays of
the vectorized feedback routine as lists of per-secret rows.  All functions
are translated directly from the source.
-/

namespace NerdleSolveInTwo

/-! ### Feedback engine (compute_feedback) -/

/-- Pass 1 of `compute_feedback`: `greens = guess[np.newaxis, :] == all_secrets`,
restricted to a single secret row.  Entry `p` is `true` when the guess and the
secret agree at position `p`. -/
def greensRow (guess secret : List Nat) : List Bool :=
  List.zipWith (fun a b => a == b) guess secret

/-- `np.where(guess == char)[0]`: the positions of `guess` holding character
`c`, in ascending order. -/
def positionsOf (c : Nat) (guess : List Nat) : List Nat :=
  (List.range guess.length).filter (fun p => guess.getD p 0 == c)

/-- `(all_secrets == char).sum(axis=1)` for one secret row: the number of
occurrences of `c` in the secret. -/
def char_in_secret_count (c : Nat) (secret : List Nat) : Nat :=
  secret.countP (fun x => x == c)

/-- `(greens & char_in_secret).sum(axis=1)` for one secret row: the number of
positions where the guess matches the secret and the secret holds `c`. -/
def char_green_count (c : Nat) (guess secret : List Nat) : Nat :=
  (guess.zip secret).countP (fun x => (x.1 == x.2) && (x.2 == c))

/-- `remaining = char_in_secret.sum(axis=1) - char_green.sum(axis=1)` for one
secret row: how many occurrences of `c` in the secret are not consumed by a
green at a position of `c`. -/
def remainingOf (c : Nat) (guess secret : List Nat) : Nat :=
  char_in_secret_count c secret - char_green_count c guess secret

/-- The inner loop `for p in guess_positions: ...` of `compute_feedback`,
for a single secret row.  `gr` is the greens row, `rem` the remaining count
for the current character, `assigned` the running counter, `result` the
per-position feedback row (0 = black, 1 = purple, 2 = green). -/
def purpleWalk (gr : List Bool) (rem : Nat) :
    List Nat → Nat → List Nat → List Nat
  | [], _, result => result
  | p :: ps, assigned, result =>
    if gr.getD p false = false ∧ assigned < rem then
      purpleWalk gr rem ps (assigned + 1) (result.set p 1)
    else
      purpleWalk gr rem ps assigned result

/-- `np.unique(guess)`: the distinct characters of the guess.  `np.unique`
returns them sorted; the processing order over distinct characters is
irrelevant because different characters touch disjoint position sets, so the
first-occurrence order of `dedup` is used. -/
def uniqueChars (guess : List Nat) : List Nat :=
  guess.dedup

/-- The body of the per-character loop of `compute_feedback`, for a single
secret row: recompute `remaining` and `guess_positions` for character `c`
and walk the positions with a fresh `assigned` counter. -/
def charPass (guess secret : List Nat) (res : List Nat) (c : Nat) : List Nat :=
  purpleWalk (greensRow guess secret) (remainingOf c guess secret) (positionsOf c guess) 0 res

/-- The full feedback row `result[i]` of `compute_feedback` for a single
secret: the greens pass (`result[greens] = 2`) followed by the
per-character purple pass. -/
def feedbackRow (guess secret : List Nat) : List Nat :=
  (uniqueChars guess).foldl (charPass guess secret)
    ((greensRow guess secret).map (fun b => if b then (2 : Nat) else 0))

/-- `(result.astype(np.int64) * powers[np.newaxis, :]).sum(axis=1)`: the
base-3 hash of one feedback row, position `i` weighted by `3 ^ i`. -/
def patternHash (row : List Nat) : Nat :=
  (List.zipWith (fun d i => d * 3 ^ i) row (List.range 8)).sum

/-- The encoded feedback of one guess against one secret: the per-pair view
of `compute_feedback`. -/
def feedbackHash (guess secret : List Nat) : Nat :=
  patternHash (feedbackRow guess secret)

/-! ### Batched feedback (the vectorized arrays of `compute_feedback`)

The NumPy implementation carries parallel arrays indexed by secret:
`greens` (N×8), `remaining` (N), `assigned` (N) and `result` (N×8).  The
embedding keeps, for each secret, one record of the corresponding rows and
scalars; every vectorized statement acts on all rows in lockstep. -/

/-- The per-secret slice of the vectorized state inside the per-character
loop of `compute_feedback`. -/
structure RowState where
  gr : List Bool
  rem : Nat
  asg : Nat
  res : List Nat

/-- One iteration of `for p in guess_positions` on a single row of the
vectorized state: `can_purple = (~greens[:, p]) & (assigned < remaining)`,
`result[can_purple, p] = 1`, `assigned[can_purple] += 1`. -/
def batchStep (p : Nat) (st : RowState) : RowState :=
  if st.gr.getD p false = false ∧ st.asg < st.rem then
    RowState.mk st.gr st.rem (st.asg + 1) (st.res.set p 1)
  else
    st

/-- `compute_feedback`: the vectorized feedback computation over the whole
secret list, returning one base-3 hash per secret. -/
def compute_feedback (guess : List Nat) (all_secrets : List (List Nat)) : List Nat :=
  let greens := all_secrets.map (greensRow guess)
  let results0 := greens.map (fun gr => gr.map (fun b => if b then (2 : Nat) else 0))
  let rows := (uniqueChars guess).foldl
    (fun res c =>
      let rems := all_secrets.map (fun s => remainingOf c guess s)
      let states := List.zipWith (fun (gr_rem : List Bool × Nat) r =>
          RowState.mk gr_rem.1 gr_rem.2 0 r) (greens.zip rems) res
      ((positionsOf c guess).foldl (fun sts p => sts.map (batchStep p)) states).map
        RowState.res)
    results0
  rows.map patternHash

/-! ### Aggregation (main) -/

/-- `ALL_GREEN_HASH = sum(2 * (3 ** i) for i in range(8))`. -/
def ALL_GREEN_HASH : Nat :=
  ((List.range 8).map (fun i => 2 * 3 ^ i)).sum

/-- `num_patterns[gi] = len(unique) - int(ALL_GREEN_HASH in unique)` where
`unique = np.unique(compute_feedback(encoded[gi], encoded))`. -/
def num_patterns (all_secrets : List (List Nat)) (guess : List Nat) : Nat :=
  let hashes := compute_feedback guess all_secrets
  let unique := hashes.dedup
  unique.length - (if ALL_GREEN_HASH ∈ unique then 1 else 0)

/-- The `num_patterns` array of `main`, one entry per guess. -/
def num_patterns_list (all_secrets : List (List Nat)) : List Nat :=
  all_secrets.map (fun g => num_patterns all_secrets g)

/-- `p_solve2 = num_patterns / N`: the per-guess probability array, modelled
over the rationals. -/
def p_solve2 (all_secrets : List (List Nat)) : List ℚ :=
  (num_patterns_list all_secrets).map
    (fun np_g : Nat => (np_g : ℚ) / (all_secrets.length : ℚ))

/-- `order = np.argsort(-p_solve2)`: a permutation of the guess indices that
sorts the negated probabilities ascending (best guess first).  `argsort` is
some sorting algorithm with implementation-defined tie order; it is modelled
by `mergeSort`. -/
def rankOrder (all_secrets : List (List Nat)) : List Nat :=
  (List.range all_secrets.length).mergeSort
    (fun i j => decide (-((p_solve2 all_secrets).getD i 0) ≤ -((p_solve2 all_secrets).getD j 0)))

/-- One row of the saved CSV table: rank, guess, distinct-pattern count,
probability.  `for rank, idx in enumerate(order, 1): f.write(...)`. -/
def csvRows (all_secrets : List (List Nat)) : List (Nat × List Nat × Nat × ℚ) :=
  (rankOrder all_secrets).enum.map
    (fun ri =>
      (ri.1 + 1, all_secrets.getD ri.2 [],
       (num_patterns_list all_secrets).getD ri.2 0,
       (p_solve2 all_secrets).getD ri.2 0))

/-! ### Loader (load_solutions, encode_solutions) -/

/-- ASCII whitespace stripped by Python's `str.strip()`.  (Python also strips
some Unicode space characters; the input vocabulary is ASCII.) -/
def pySpace (c : Char) : Bool :=
  c == ' ' || c == '\t' || c == '\n' || c == '\r' || c == '\x0b' || c == '\x0c'

/-- `line.strip()`: remove leading and trailing whitespace. -/
def pyStrip (l : List Char) : List Char :=
  ((l.dropWhile pySpace).reverse.dropWhile pySpace).reverse

/-- The assertion message
`f"Expected 8-char equation, got '{s}' (len {len(s)})"`. -/
def assertMessage (s : List Char) : List Char :=
  ("Expected 8-char equation, got '".toList) ++ s ++
    ("' (len ".toList) ++ (Nat.repr s.length).toList ++ (")".toList)

/-- `load_solutions`: strip every line, keep the non-blank ones
(`[line.strip() for line in f if line.strip()]`), then assert that every
entry has length 8.  The error value is the first offending record, as named
by the failing assertion. -/
def load_solutions (lines : List (List Char)) : Except (List Char) (List (List Char)) :=
  let solutions := (lines.map pyStrip).filter (fun s => !s.isEmpty)
  match solutions.find? (fun s => s.length != 8) with
  | some bad => Except.error (assertMessage bad)
  | none => Except.ok solutions

/-- `encode_solutions`: ASCII codes of every character, stored as `uint8`. -/
def encode_solutions (solutions : List (List Char)) : List (List Nat) :=
  solutions.map (fun s => s.map (fun c => c.toNat % 256))

/-! ### Main control flow (main) -/

/-- The fixed input file name `NerdleClassicRestricted.txt`. -/
def dataFileName : List Char :=
  ("NerdleClassicRestricted.txt").toList

/-- The external acquisition source named in the error message. -/
def sourceURL : List Char :=
  ("https://github.com/pedrokkrause/Nerdle-Equations").toList

/-- `sys.exit(f"ERROR: {data_path} not found. Download it from https://...")`. -/
def missingMessage (data_path : List Char) : List Char :=
  ("ERROR: ".toList) ++ data_path ++
    (" not found. Download it from https://github.com/pedrokkrause/Nerdle-Equations").toList

/-- The message of the exception Python's `open(filepath, "r")` raises for
an existing file the process may not read; `main` does not catch it, so the
process aborts with this text (a traceback ending in this line), which
names the path but no download source.  Modelled from the runtime
semantics of the `open` call in `load_solutions`. -/
def permissionMessage (data_path : List Char) : List Char :=
  ("PermissionError: [Errno 13] Permission denied: '").toList ++ data_path ++
    ("'").toList

/-- The file-system facts `main` observes: whether `os.path.exists(data_path)`
holds, whether the file can actually be opened for reading, the directory of
the script, and the lines of the input file. -/
structure Env where
  pathExists : Bool
  readable : Bool
  scriptDir : List Char
  fileLines : List (List Char)

/-- The input/output behaviour of `main`: check that the data file exists,
open it (an existing but unreadable file makes `open` raise an uncaught
`PermissionError`), load and validate the solutions, and produce the rows
of the saved CSV table.  A fatal exit (`sys.exit`, an uncaught exception,
or a failing assertion) is an `error` carrying the reported message; on
error no table rows are produced. -/
def mainModel (env : Env) : Except (List Char) (List (Nat × List Nat × Nat × ℚ)) :=
  let data_path := env.scriptDir ++ ('/' :: dataFileName)
  if env.pathExists = false then
    Except.error (missingMessage data_path)
  else if env.readable = false then
    Except.error (permissionMessage data_path)
  else
    match load_solutions env.fileLines with
    | Except.error msg => Except.error msg
    | Except.ok solutions => Except.ok (csvRows (encode_solutions solutions))

/-! ### Derived notions used in the statements -/

/-- The non-match positions of character `c` in the guess, in ascending
order: positions of `c` that the greens pass did not mark. -/
def nonMatchPositions (c : Nat) (guess secret : List Nat) : List Nat :=
  (positionsOf c guess).filter (fun x => !((greensRow guess secret).getD x false))

/-- The rank of position `p` among the non-match positions of `c`: how many
non-match positions of `c` lie strictly before `p`. -/
def nonMatchRank (c : Nat) (guess secret : List Nat) (p : Nat) : Nat :=
  ((nonMatchPositions c guess secret).filter (fun x => decide (x < p))).length

/-! ### Invariants of the purple walk -/

theorem getD_set_ne {l : List Nat} {i j : Nat} (h : i ≠ j) (a : Nat) :
    (l.set i a).getD j 0 = l.getD j 0 := by
  simp [List.getD_eq_getElem?_getD, List.getElem?_set_ne h]

theorem getD_set_self {l : List Nat} {i : Nat} (h : i < l.length) (a : Nat) :
    (l.set i a).getD i 0 = a := by
  simp [List.getD_eq_getElem?_getD, List.getElem?_set_self h]

theorem purpleWalk_length (gr : List Bool) (rem : Nat) (ps : List Nat) :
    ∀ (a : Nat) (r : List Nat), (purpleWalk gr rem ps a r).length = r.length := by
  induction ps with
  | nil => intro a r; rfl
  | cons p ps ih =>
    intro a r
    unfold purpleWalk
    split
    · rw [ih, List.length_set]
    · exact ih a r

theorem purpleWalk_getD_not_mem (gr : List Bool) (rem : Nat) (ps : List Nat) (q : Nat) :
    ∀ (a : Nat) (r : List Nat), q ∉ ps →
      (purpleWalk gr rem ps a r).getD q 0 = r.getD q 0 := by
  induction ps with
  | nil => intro a r _; rfl
  | cons p ps ih =>
    intro a r hq
    have hpq : p ≠ q := fun h => hq (h ▸ List.mem_cons_self p ps)
    have hq' : q ∉ ps := fun h => hq (List.mem_cons_of_mem _ h)
    unfold purpleWalk
    split
    · rw [ih _ _ hq', getD_set_ne hpq]
    · exact ih a r hq'

theorem purpleWalk_getD_mem (gr : List Bool) (rem : Nat) (ps : List Nat) (q : Nat) :
    ∀ (a : Nat) (r : List Nat), ps.Pairwise (· < ·) → q ∈ ps → q < r.length →
      (purpleWalk gr rem ps a r).getD q 0 =
        if gr.getD q false = false ∧
            a + (ps.filter (fun x => decide (x < q) && !(gr.getD x false))).length < rem
        then 1 else r.getD q 0 := by
  induction ps with
  | nil => intro a r _ hq _; cases hq
  | cons p ps ih =>
    intro a r hpair hq hqr
    rw [List.pairwise_cons] at hpair
    obtain ⟨hplt, hpair'⟩ := hpair
    rcases List.mem_cons.mp hq with hqp | hqps
    · subst hqp
      have hqps : q ∉ ps := fun h => absurd (hplt q h) (lt_irrefl q)
      have hfilt : ((q :: ps).filter (fun x => decide (x < q) && !(gr.getD x false))) = [] := by
        apply List.filter_eq_nil_iff.mpr
        intro x hx
        rcases List.mem_cons.mp hx with h | h
        · subst h; simp
        · have hlt : q < x := hplt x h
          have : ¬ (x < q) := by omega
          simp [this]
      rw [hfilt]
      simp only [List.length_nil, Nat.add_zero]
      unfold purpleWalk
      by_cases hc : gr.getD q false = false ∧ a < rem
      · rw [if_pos hc, if_pos hc, purpleWalk_getD_not_mem gr rem ps q _ _ hqps,
          getD_set_self hqr]
      · rw [if_neg hc, if_neg hc, purpleWalk_getD_not_mem gr rem ps q _ _ hqps]
    · have hpq : p < q := hplt q hqps
      have hpne : p ≠ q := Nat.ne_of_lt hpq
      have hfc : ((p :: ps).filter (fun x => decide (x < q) && !(gr.getD x false))).length
          = (ps.filter (fun x => decide (x < q) && !(gr.getD x false))).length
            + (if gr.getD p false = false then 1 else 0) := by
        rw [List.filter_cons]
        by_cases h : gr.getD p false = false
        · have hp : (decide (p < q) && !(gr.getD p false)) = true := by
            rw [h]; simp [hpq]
          rw [if_pos hp, if_pos h, List.length_cons]
        · have hp : (decide (p < q) && !(gr.getD p false)) = false := by
            simp only [Bool.not_eq_false] at h
            rw [h]; simp
          have hneg : ¬ ((decide (p < q) && !(gr.getD p false)) = true) := by
            rw [hp]; exact Bool.false_ne_true
          rw [if_neg hneg, if_neg h, Nat.add_zero]
      unfold purpleWalk
      by_cases hc : gr.getD p false = false ∧ a < rem
      · rw [if_pos hc,
          ih (a + 1) (r.set p 1) hpair' hqps (by rw [List.length_set]; exact hqr),
          getD_set_ne hpne, hfc]
        apply if_congr _ rfl rfl
        rw [if_pos hc.1]
        exact and_congr_right fun _ => by omega
      · rw [if_neg hc, ih a r hpair' hqps hqr, hfc]
        apply if_congr _ rfl rfl
        by_cases hg : gr.getD p false = false
        · -- head position is non-green but the counter is exhausted
          have ha : ¬ a < rem := fun h => hc ⟨hg, h⟩
          rw [if_pos hg]
          constructor
          · intro ⟨h1, h2⟩; exact absurd (by omega : a < rem) ha
          · intro ⟨h1, h2⟩; exact absurd (by omega : a < rem) ha
        · rw [if_neg hg]
          exact and_congr_right fun _ => by omega

/-! ### Characterization of one feedback row -/

theorem zipWith_getD {α β γ : Type _} (f : α → β → γ) (g : List α) (s : List β) (p : Nat)
    (da : α) (db : β) (dc : γ) (hp : p < g.length) (hps : p < s.length) :
    (List.zipWith f g s).getD p dc = f (g.getD p da) (s.getD p db) := by
  induction g generalizing s p with
  | nil => simp at hp
  | cons a g ih =>
    cases s with
    | nil => simp at hps
    | cons b s =>
      cases p with
      | zero => rfl
      | succ p =>
        simp only [List.zipWith_cons_cons, List.getD_cons_succ]
        exact ih s p (by simpa using hp) (by simpa using hps)

theorem greensRow_getD (guess secret : List Nat) (p : Nat)
    (hp : p < guess.length) (hps : p < secret.length) :
    (greensRow guess secret).getD p false = (guess.getD p 0 == secret.getD p 0) :=
  zipWith_getD _ guess secret p 0 0 false hp hps

theorem greensRow_length (guess secret : List Nat) :
    (greensRow guess secret).length = min guess.length secret.length :=
  List.length_zipWith _ _ _

theorem mem_positionsOf {c : Nat} {g : List Nat} {p : Nat} :
    p ∈ positionsOf c g ↔ p < g.length ∧ g.getD p 0 = c := by
  simp [positionsOf, List.mem_filter, List.mem_range]

theorem positionsOf_pairwise (c : Nat) (g : List Nat) :
    (positionsOf c g).Pairwise (· < ·) :=
  List.Pairwise.sublist (List.filter_sublist _) (List.pairwise_lt_range _)

theorem foldl_charPass_length (guess secret : List Nat) (L : List Nat) :
    ∀ r : List Nat, (L.foldl (charPass guess secret) r).length = r.length := by
  induction L with
  | nil => intro r; rfl
  | cons c L ih =>
    intro r
    rw [List.foldl_cons, ih]
    unfold charPass
    exact purpleWalk_length _ _ _ _ _

theorem foldl_charPass_getD_not_mem (guess secret : List Nat) (L : List Nat) (p : Nat) :
    ∀ r : List Nat, guess.getD p 0 ∉ L →
      (L.foldl (charPass guess secret) r).getD p 0 = r.getD p 0 := by
  induction L with
  | nil => intro r _; rfl
  | cons c L ih =>
    intro r hc
    have hne : guess.getD p 0 ≠ c := fun h => hc (h ▸ List.mem_cons_self c L)
    have hnm : p ∉ positionsOf c guess := by
      rw [mem_positionsOf]; rintro ⟨_, h⟩; exact hne h
    rw [List.foldl_cons, ih _ (fun h => hc (List.mem_cons_of_mem _ h))]
    unfold charPass
    exact purpleWalk_getD_not_mem _ _ _ _ _ _ hnm

theorem foldl_charPass_getD_mem (guess secret : List Nat) (L : List Nat) (p : Nat)
    (hp : p < guess.length) :
    ∀ r : List Nat, L.Nodup → guess.getD p 0 ∈ L → p < r.length →
      (L.foldl (charPass guess secret) r).getD p 0 =
        if (greensRow guess secret).getD p false = false ∧
            ((positionsOf (guess.getD p 0) guess).filter
              (fun x => decide (x < p) && !((greensRow guess secret).getD x false))).length
              < remainingOf (guess.getD p 0) guess secret
        then 1 else r.getD p 0 := by
  induction L with
  | nil => intro r _ hc _; cases hc
  | cons c L ih =>
    intro r hnd hc hpr
    rw [List.nodup_cons] at hnd
    rw [List.foldl_cons]
    by_cases hec : guess.getD p 0 = c
    · have hcL : guess.getD p 0 ∉ L := hec ▸ hnd.1
      rw [foldl_charPass_getD_not_mem guess secret L p _ hcL]
      unfold charPass
      rw [purpleWalk_getD_mem _ _ _ _ _ _ (positionsOf_pairwise c guess)
        (mem_positionsOf.mpr ⟨hp, hec⟩) hpr]
      rw [hec]
      simp only [Nat.zero_add]
    · have hcl : guess.getD p 0 ∈ L := (List.mem_cons.mp hc).resolve_left hec
      have hnm : p ∉ positionsOf c guess := by
        rw [mem_positionsOf]; rintro ⟨_, h⟩; exact hec h
      have h1 : (charPass guess secret r c).length = r.length := by
        unfold charPass; exact purpleWalk_length _ _ _ _ _
      rw [ih _ hnd.2 hcl (h1 ▸ hpr)]
      unfold charPass
      rw [purpleWalk_getD_not_mem _ _ _ _ _ _ hnm]

theorem initRow_getD (guess secret : List Nat) (p : Nat)
    (hp : p < (greensRow guess secret).length) :
    ((greensRow guess secret).map (fun b => if b then (2 : Nat) else 0)).getD p 0
      = if (greensRow guess secret).getD p false = true then (2 : Nat) else 0 := by
  rw [List.getD_eq_getElem _ _ (by rw [List.length_map]; exact hp), List.getElem_map,
    List.getD_eq_getElem _ _ hp]

theorem feedbackRow_length (guess secret : List Nat) :
    (feedbackRow guess secret).length = min guess.length secret.length := by
  unfold feedbackRow
  rw [foldl_charPass_length, List.length_map, greensRow_length]

/-- The per-position value of one feedback row: 2 exactly at match
positions; 1 exactly at the non-match positions of the guess character whose
rank among that character's non-match positions is below the remaining
count; 0 otherwise. -/
theorem feedbackRow_getD (guess secret : List Nat) (h8 : guess.length = 8)
    (hs8 : secret.length = 8) (p : Nat) (hp : p < 8) :
    (feedbackRow guess secret).getD p 0 =
      if guess.getD p 0 = secret.getD p 0 then 2
      else if nonMatchRank (guess.getD p 0) guess secret p
          < remainingOf (guess.getD p 0) guess secret then 1 else 0 := by
  have hpg : p < guess.length := by omega
  have hpsec : p < secret.length := by omega
  have hgrlen : p < (greensRow guess secret).length := by
    rw [greensRow_length]; omega
  have hinitlen : p < ((greensRow guess secret).map
      (fun b => if b then (2 : Nat) else 0)).length := by
    rw [List.length_map]; exact hgrlen
  have hmemdedup : guess.getD p 0 ∈ uniqueChars guess := by
    rw [uniqueChars, List.mem_dedup, List.getD_eq_getElem _ _ hpg]
    exact List.getElem_mem hpg
  have hrank : nonMatchRank (guess.getD p 0) guess secret p =
      ((positionsOf (guess.getD p 0) guess).filter
        (fun x => decide (x < p) && !((greensRow guess secret).getD x false))).length := by
    rw [nonMatchRank, nonMatchPositions, List.filter_filter]
  unfold feedbackRow
  rw [foldl_charPass_getD_mem guess secret (uniqueChars guess) p hpg _
      (List.nodup_dedup guess) hmemdedup hinitlen,
    initRow_getD guess secret p hgrlen, greensRow_getD guess secret p hpg hpsec, ← hrank]
  by_cases hm : guess.getD p 0 = secret.getD p 0
  · have hb : (guess.getD p 0 == secret.getD p 0) = true := beq_iff_eq.mpr hm
    rw [hb, if_pos hm, if_neg (by simp), if_pos rfl]
  · have hb : (guess.getD p 0 == secret.getD p 0) = false := beq_eq_false_iff_ne.mpr hm
    rw [hb, if_neg hm]
    by_cases hr : nonMatchRank (guess.getD p 0) guess secret p
        < remainingOf (guess.getD p 0) guess secret
    · rw [if_pos ⟨rfl, hr⟩, if_pos hr]
    · rw [if_neg (fun h => hr h.2), if_neg hr]
      simp

/-! ### The all-green pattern -/

theorem ALL_GREEN_HASH_eq : ALL_GREEN_HASH = 6560 := by rfl

theorem feedbackRow_getD_le (guess secret : List Nat) (h8 : guess.length = 8)
    (hs8 : secret.length = 8) (p : Nat) (hp : p < 8) :
    (feedbackRow guess secret).getD p 0 ≤ 2 := by
  rw [feedbackRow_getD guess secret h8 hs8 p hp]
  split_ifs <;> omega

theorem feedbackRow_len8 (guess secret : List Nat) (h8 : guess.length = 8)
    (hs8 : secret.length = 8) : (feedbackRow guess secret).length = 8 := by
  rw [feedbackRow_length, h8, hs8]; rfl

theorem feedbackRow_mem_le (guess secret : List Nat) (h8 : guess.length = 8)
    (hs8 : secret.length = 8) : ∀ d ∈ feedbackRow guess secret, d ≤ 2 := by
  intro d hd
  rw [List.mem_iff_getElem] at hd
  obtain ⟨n, hn, hdn⟩ := hd
  have hn8 : n < 8 := by
    rw [feedbackRow_len8 guess secret h8 hs8] at hn; exact hn
  have hv : (feedbackRow guess secret).getD n 0 = d := by
    rw [List.getD_eq_getElem _ _ hn, hdn]
  rw [← hv]
  exact feedbackRow_getD_le guess secret h8 hs8 n hn8

/-- Base-3 uniqueness on 8-digit rows: a row of digits at most 2 hashes to
the all-green value exactly when every digit is 2. -/
theorem patternHash_eq_allGreen_iff (row : List Nat) (hlen : row.length = 8)
    (hle : ∀ d ∈ row, d ≤ 2) :
    patternHash row = ALL_GREEN_HASH ↔ ∀ d ∈ row, d = 2 := by
  rcases row with _ | ⟨d0, _ | ⟨d1, _ | ⟨d2, _ | ⟨d3, _ | ⟨d4, _ | ⟨d5, _ | ⟨d6, _ |
    ⟨d7, _ | ⟨d8, rest⟩⟩⟩⟩⟩⟩⟩⟩⟩ <;>
    simp only [List.length_cons, List.length_nil] at hlen <;> try omega
  simp only [List.forall_mem_cons, List.not_mem_nil, false_implies, implies_true,
    and_true] at hle ⊢
  have hr8 : List.range 8 = [0, 1, 2, 3, 4, 5, 6, 7] := by rfl
  rw [patternHash, ALL_GREEN_HASH_eq, hr8]
  simp only [List.zipWith_cons_cons, List.zipWith_nil_right, List.sum_cons, List.sum_nil]
  norm_num
  omega

/-- `feedback(G, S)` encodes as the all-green pattern exactly when `G = S`. -/
theorem feedbackHash_eq_allGreen_iff (guess secret : List Nat) (h8 : guess.length = 8)
    (hs8 : secret.length = 8) :
    feedbackHash guess secret = ALL_GREEN_HASH ↔ guess = secret := by
  rw [feedbackHash, patternHash_eq_allGreen_iff _ (feedbackRow_len8 guess secret h8 hs8)
    (feedbackRow_mem_le guess secret h8 hs8)]
  constructor
  · intro hall
    apply List.ext_getElem (by omega)
    intro n h1 h2
    have hn8 : n < 8 := by omega
    have hnr : n < (feedbackRow guess secret).length := by
      rw [feedbackRow_len8 guess secret h8 hs8]; exact hn8
    have hmem : (feedbackRow guess secret).getD n 0 ∈ feedbackRow guess secret := by
      rw [List.getD_eq_getElem _ _ hnr]
      exact List.getElem_mem hnr
    have h2' := hall _ hmem
    rw [← List.getD_eq_getElem guess 0 h1, ← List.getD_eq_getElem secret 0 h2]
    by_contra hne
    have hv := feedbackRow_getD guess secret h8 hs8 n hn8
    rw [if_neg hne, h2'] at hv
    split_ifs at hv <;> omega
  · intro heq
    subst heq
    intro d hd
    rw [List.mem_iff_getElem] at hd
    obtain ⟨n, hn, rfl⟩ := hd
    have hn8 : n < 8 := by
      rw [feedbackRow_len8 guess guess h8 h8] at hn; exact hn
    rw [← List.getD_eq_getElem _ 0 hn, feedbackRow_getD guess guess h8 h8 n hn8, if_pos rfl]

/-- C1: For every 8-character guess G and secret S, the encoded feedback
equals the all-match value — the sum over i of 2 * 3 ^ i, which is 6560 —
if and only if G equals S; in particular feedback(S, S) always encodes as
the all-match pattern, and no unequal pair produces it. -/
theorem C1_allGreen_iff (guess secret : List Nat) (h8 : guess.length = 8)
    (hs8 : secret.length = 8) :
    (feedbackHash guess secret = ALL_GREEN_HASH ↔ guess = secret) ∧ ALL_GREEN_HASH = 6560 :=
  ⟨feedbackHash_eq_allGreen_iff guess secret h8 hs8, ALL_GREEN_HASH_eq⟩

theorem C1_witness :
    ([49, 50, 43, 51, 52, 61, 52, 54] : List Nat).length = 8 ∧
      ([52, 56, 45, 49, 50, 61, 51, 54] : List Nat).length = 8 ∧
      (feedbackHash [49, 50, 43, 51, 52, 61, 52, 54] [52, 56, 45, 49, 50, 61, 51, 54]
          = ALL_GREEN_HASH ↔
        ([49, 50, 43, 51, 52, 61, 52, 54] : List Nat) = [52, 56, 45, 49, 50, 61, 51, 54]) :=
  ⟨by decide, by decide, (C1_allGreen_iff _ _ (by decide) (by decide)).1⟩

/-! ### Counting marks per character -/

theorem countP_and_not {α : Type _} (l : List α) (A M : α → Bool) :
    l.countP (fun x => A x && M x) + l.countP (fun x => A x && !(M x)) = l.countP A := by
  induction l with
  | nil => rfl
  | cons a t ih =>
    simp only [List.countP_cons]
    cases hA : A a <;> cases hM : M a <;> simp [hA, hM] <;> omega

theorem range_map_getD (g : List Nat) :
    (List.range g.length).map (fun p => g.getD p 0) = g := by
  induction g with
  | nil => rfl
  | cons a t ih =>
    rw [List.length_cons, List.range_succ_eq_map, List.map_cons, List.map_map]
    simp only [Function.comp_def, Nat.succ_eq_add_one, List.getD_cons_succ,
      List.getD_cons_zero]
    rw [ih]

theorem countP_range_getD (g : List Nat) (pred : Nat → Bool) :
    (List.range g.length).countP (fun p => pred (g.getD p 0)) = g.countP pred := by
  have h := List.countP_map pred (fun p => g.getD p 0) (List.range g.length)
  rw [range_map_getD] at h
  exact h.symm

theorem zip_eq_range_map (g s : List Nat) (h : g.length = s.length) :
    g.zip s = (List.range g.length).map (fun p => (g.getD p 0, s.getD p 0)) := by
  induction g generalizing s with
  | nil => rfl
  | cons a t ih =>
    cases s with
    | nil => simp at h
    | cons b u =>
      rw [List.length_cons, List.range_succ_eq_map, List.map_cons, List.map_map]
      simp only [Function.comp_def, Nat.succ_eq_add_one, List.getD_cons_succ,
        List.getD_cons_zero, List.zip_cons_cons]
      rw [ih u (by simpa using h)]

/-- The first-`k` count: in a strictly increasing list, the elements whose
rank in the list is below `m` number exactly `min length m`. -/
theorem countP_rank_lt (l : List Nat) :
    ∀ m : Nat, l.Pairwise (· < ·) →
      l.countP (fun x => decide (l.countP (fun y => decide (y < x)) < m)) = min l.length m := by
  induction l with
  | nil => intro m _; simp
  | cons a t ih =>
    intro m hp
    rw [List.pairwise_cons] at hp
    obtain ⟨ha, hp'⟩ := hp
    have hra : (a :: t).countP (fun y => decide (y < a)) = 0 := by
      rw [List.countP_eq_zero]
      intro x hx
      rcases List.mem_cons.mp hx with h | h
      · subst h; simp
      · have := ha x h; simp; omega
    have hrx : ∀ x ∈ t, (a :: t).countP (fun y => decide (y < x))
        = t.countP (fun y => decide (y < x)) + 1 := by
      intro x hx
      rw [List.countP_cons]
      have := ha x hx
      simp [this]
    rw [List.countP_cons, hra]
    have hcongr : t.countP (fun x => decide ((a :: t).countP (fun y => decide (y < x)) < m))
        = t.countP (fun x => decide (t.countP (fun y => decide (y < x)) + 1 < m)) := by
      apply List.countP_congr
      intro x hx
      rw [hrx x hx]
    rw [hcongr]
    cases m with
    | zero =>
      have hz : t.countP (fun x => decide (t.countP (fun y => decide (y < x)) + 1 < 0)) = 0 := by
        rw [List.countP_eq_zero]
        intro x _
        simp
      rw [hz]
      simp
    | succ k =>
      have hk : t.countP (fun x => decide (t.countP (fun y => decide (y < x)) + 1 < k + 1))
          = t.countP (fun x => decide (t.countP (fun y => decide (y < x)) < k)) := by
        apply List.countP_congr
        intro x _
        simp only [decide_eq_true_eq]
        omega
      rw [hk, ih k hp']
      simp only [decide_eq_true_eq, List.length_cons]
      rw [if_pos (by omega : (0 : Nat) < k + 1)]
      omega

theorem nonMatchRank_eq_countP (c : Nat) (g s : List Nat) (p : Nat) :
    nonMatchRank c g s p = (nonMatchPositions c g s).countP (fun x => decide (x < p)) :=
  (List.countP_eq_length_filter _ _).symm

theorem nonMatchPositions_pairwise (c : Nat) (g s : List Nat) :
    (nonMatchPositions c g s).Pairwise (· < ·) :=
  List.Pairwise.sublist (List.filter_sublist _) (positionsOf_pairwise c g)

theorem mem_nonMatchPositions {c : Nat} {g s : List Nat} {p : Nat} :
    p ∈ nonMatchPositions c g s ↔
      p < g.length ∧ g.getD p 0 = c ∧ (greensRow g s).getD p false = false := by
  rw [nonMatchPositions, List.mem_filter, mem_positionsOf]
  simp [and_assoc]


/-- A member of an ascending position list has rank strictly below the
length of the list. -/
theorem nonMatchRank_lt_length {c : Nat} {g s : List Nat} {p : Nat}
    (hp : p ∈ nonMatchPositions c g s) :
    nonMatchRank c g s p < (nonMatchPositions c g s).length := by
  rw [nonMatchRank_eq_countP]
  have hsplit := countP_and_not (nonMatchPositions c g s)
    (fun _ => true) (fun x => decide (x < p))
  have hpos : 0 < (nonMatchPositions c g s).countP
      (fun x => true && !(decide (x < p))) := by
    rw [List.countP_pos_iff]
    exact ⟨p, hp, by simp⟩
  have hle : (nonMatchPositions c g s).countP (fun x => decide (x < p))
      ≤ (nonMatchPositions c g s).countP (fun x => true && decide (x < p)) := by
    apply List.countP_mono_left
    intro x _ hx
    simpa using hx
  have htot : (nonMatchPositions c g s).countP (fun _ => true)
      = (nonMatchPositions c g s).length := congrFun List.countP_true _
  omega

/-- Counting over the non-match positions of `c` is counting over all
positions, conjoined with "position of c" and "not green". -/
theorem nonMatchPositions_countP_eq (c : Nat) (g s : List Nat) (h8 : g.length = 8)
    (C : Nat → Bool) :
    (nonMatchPositions c g s).countP C
      = (List.range 8).countP
        (fun x => (C x && !((greensRow g s).getD x false)) && (g.getD x 0 == c)) := by
  rw [nonMatchPositions, List.countP_filter, positionsOf, List.countP_filter, h8]

/-- C3: For every guess, secret and character c, the number of positions of
c in the guess marked match plus the number marked present-elsewhere is at
most the number of occurrences of c in the guess, and at most the number of
occurrences of c in the secret. -/
theorem C3_mark_counts (g s : List Nat) (h8 : g.length = 8) (hs8 : s.length = 8)
    (c : Nat) :
    (List.range 8).countP
        (fun p => (g.getD p 0 == c) && ((feedbackRow g s).getD p 0 == 2))
      + (List.range 8).countP
        (fun p => (g.getD p 0 == c) && ((feedbackRow g s).getD p 0 == 1))
      ≤ g.count c ∧
    (List.range 8).countP
        (fun p => (g.getD p 0 == c) && ((feedbackRow g s).getD p 0 == 2))
      + (List.range 8).countP
        (fun p => (g.getD p 0 == c) && ((feedbackRow g s).getD p 0 == 1))
      ≤ s.count c := by
  -- the match marks of c are exactly the aligned positions of c
  have hgreen : (List.range 8).countP
      (fun p => (g.getD p 0 == c) && ((feedbackRow g s).getD p 0 == 2))
      = (List.range 8).countP
        (fun p => (g.getD p 0 == c) && (g.getD p 0 == s.getD p 0)) := by
    apply List.countP_congr
    intro p hp
    rw [List.mem_range] at hp
    rw [feedbackRow_getD g s h8 hs8 p hp]
    by_cases hm : g.getD p 0 = s.getD p 0
    · rw [if_pos hm, beq_iff_eq.mpr hm]
      rw [show ((2 : Nat) == 2) = true from rfl]
    · rw [if_neg hm, beq_eq_false_iff_ne.mpr hm, Bool.and_false]
      by_cases hr : nonMatchRank (g.getD p 0) g s p < remainingOf (g.getD p 0) g s
      · rw [if_pos hr, show ((1 : Nat) == 2) = false from rfl, Bool.and_false]
      · rw [if_neg hr, show ((0 : Nat) == 2) = false from rfl, Bool.and_false]
  -- the present-elsewhere marks of c are the first non-match positions of c,
  -- up to the remaining count
  have hpurple : (List.range 8).countP
      (fun p => (g.getD p 0 == c) && ((feedbackRow g s).getD p 0 == 1))
      = min (nonMatchPositions c g s).length (remainingOf c g s) := by
    rw [← countP_rank_lt (nonMatchPositions c g s) (remainingOf c g s)
      (nonMatchPositions_pairwise c g s)]
    rw [nonMatchPositions_countP_eq c g s h8]
    apply List.countP_congr
    intro p hp
    rw [List.mem_range] at hp
    rw [feedbackRow_getD g s h8 hs8 p hp]
    have hgr := greensRow_getD g s p (by omega) (by omega)
    by_cases hm : g.getD p 0 = s.getD p 0
    · have hgrt : (greensRow g s).getD p false = true := by
        rw [hgr]; exact beq_iff_eq.mpr hm
      rw [if_pos hm, hgrt, show ((2 : Nat) == 1) = false from rfl]
      simp only [Bool.and_false, Bool.not_true, Bool.false_and]
    · have hgrf : (greensRow g s).getD p false = false := by
        rw [hgr]; exact beq_eq_false_iff_ne.mpr hm
      rw [if_neg hm, hgrf]
      simp only [Bool.not_false, Bool.and_true]
      by_cases hA : g.getD p 0 = c
      · have hrank : nonMatchRank (g.getD p 0) g s p
            = (nonMatchPositions c g s).countP (fun y => decide (y < p)) := by
          rw [hA, nonMatchRank_eq_countP]
        have hremeq : remainingOf (g.getD p 0) g s = remainingOf c g s := by rw [hA]
        by_cases hr : (nonMatchPositions c g s).countP (fun y => decide (y < p))
            < remainingOf c g s
        · rw [if_pos (by rw [hrank, hremeq]; exact hr),
            show ((1 : Nat) == 1) = true from rfl, Bool.and_true,
            decide_eq_true hr, Bool.true_and]
        · rw [if_neg (by rw [hrank, hremeq]; exact hr),
            show ((0 : Nat) == 1) = false from rfl, Bool.and_false,
            decide_eq_false hr, Bool.false_and]
      · rw [beq_eq_false_iff_ne.mpr hA, Bool.false_and, Bool.and_false]
  -- the non-match positions of c are the non-aligned positions of c
  have hLlen : (nonMatchPositions c g s).length = (List.range 8).countP
      (fun p => (g.getD p 0 == c) && !(g.getD p 0 == s.getD p 0)) := by
    have := nonMatchPositions_countP_eq c g s h8 (fun _ => true)
    rw [← congrFun List.countP_true (nonMatchPositions c g s), this]
    apply List.countP_congr
    intro p hp
    rw [List.mem_range] at hp
    rw [greensRow_getD g s p (by omega) (by omega), Bool.true_and, Bool.and_comm]
  have htotal : (List.range 8).countP
      (fun p => (g.getD p 0 == c) && (g.getD p 0 == s.getD p 0))
      + (List.range 8).countP
        (fun p => (g.getD p 0 == c) && !(g.getD p 0 == s.getD p 0))
      = (List.range 8).countP (fun p => g.getD p 0 == c) :=
    countP_and_not _ _ _
  have hcountA : (List.range 8).countP (fun p => g.getD p 0 == c) = g.count c := by
    rw [← h8]
    exact (countP_range_getD g (fun x => x == c)).trans (List.count_eq_countP c g).symm
  -- the code's per-secret green count agrees with the aligned count of c
  have hzip : char_green_count c g s = (List.range 8).countP
      (fun p => (g.getD p 0 == s.getD p 0) && (s.getD p 0 == c)) := by
    rw [char_green_count, zip_eq_range_map g s (by omega), h8]
    exact List.countP_map _ _ _
  have hG2 : (List.range 8).countP
      (fun p => (g.getD p 0 == c) && (g.getD p 0 == s.getD p 0))
      = (List.range 8).countP
        (fun p => (g.getD p 0 == s.getD p 0) && (s.getD p 0 == c)) := by
    apply List.countP_congr
    intro p _
    by_cases hm : g.getD p 0 = s.getD p 0
    · rw [beq_iff_eq.mpr hm, Bool.and_true, Bool.true_and, hm]
    · rw [beq_eq_false_iff_ne.mpr hm, Bool.and_false, Bool.false_and]
  have hS : (List.range 8).countP (fun p => s.getD p 0 == c)
      = char_in_secret_count c s := by
    rw [char_in_secret_count, ← hs8]
    exact countP_range_getD s (fun x => x == c)
  have hScount : s.count c = (List.range 8).countP (fun p => s.getD p 0 == c) := by
    rw [hS, char_in_secret_count]
    exact List.count_eq_countP c s
  have hmono : (List.range 8).countP
      (fun p => (g.getD p 0 == s.getD p 0) && (s.getD p 0 == c))
      ≤ (List.range 8).countP (fun p => s.getD p 0 == c) := by
    apply List.countP_mono_left
    intro x _ hx
    rw [Bool.and_eq_true] at hx
    exact hx.2
  have hrem_def : remainingOf c g s
      = char_in_secret_count c s - char_green_count c g s := rfl
  rw [hgreen, hpurple]
  omega

theorem C3_witness :
    (([49, 50, 43, 51, 52, 61, 52, 54] : List Nat).length = 8 ∧
      ([52, 56, 45, 49, 50, 61, 51, 54] : List Nat).length = 8) ∧
    ((List.range 8).countP
        (fun p => (([49, 50, 43, 51, 52, 61, 52, 54] : List Nat).getD p 0 == 52) &&
          ((feedbackRow [49, 50, 43, 51, 52, 61, 52, 54] [52, 56, 45, 49, 50, 61, 51, 54]).getD p 0 == 2))
      + (List.range 8).countP
        (fun p => (([49, 50, 43, 51, 52, 61, 52, 54] : List Nat).getD p 0 == 52) &&
          ((feedbackRow [49, 50, 43, 51, 52, 61, 52, 54] [52, 56, 45, 49, 50, 61, 51, 54]).getD p 0 == 1))
      ≤ ([49, 50, 43, 51, 52, 61, 52, 54] : List Nat).count 52 ∧
    (List.range 8).countP
        (fun p => (([49, 50, 43, 51, 52, 61, 52, 54] : List Nat).getD p 0 == 52) &&
          ((feedbackRow [49, 50, 43, 51, 52, 61, 52, 54] [52, 56, 45, 49, 50, 61, 51, 54]).getD p 0 == 2))
      + (List.range 8).countP
        (fun p => (([49, 50, 43, 51, 52, 61, 52, 54] : List Nat).getD p 0 == 52) &&
          ((feedbackRow [49, 50, 43, 51, 52, 61, 52, 54] [52, 56, 45, 49, 50, 61, 51, 54]).getD p 0 == 1))
      ≤ ([52, 56, 45, 49, 50, 61, 51, 54] : List Nat).count 52) :=
  ⟨⟨by decide, by decide⟩, C3_mark_counts _ _ (by decide) (by decide) 52⟩

theorem getD_replicate_49 {p : Nat} (hp : p < 8) :
    (List.replicate 8 (49 : Nat)).getD p 0 = 49 := by
  rw [List.getD_eq_getElem _ _ (by simp [hp])]
  exact List.getElem_replicate _ _

/-- C2: For every guess, secret and character c: a non-match position of c
is marked present-elsewhere exactly when its left-to-right rank among the
non-match positions of c is below k, where k is the minimum of the number
of non-match positions of c and the count of occurrences of c in the
secret not consumed by a match; every later non-match position of c is
marked absent.  In particular guess "11111111" against a secret holding
exactly two occurrences of character '1' (code 49) yields exactly two
non-absent marks. -/
theorem C2_purple_first_k (g s : List Nat) (h8 : g.length = 8) (hs8 : s.length = 8)
    (c : Nat) :
    (∀ p, p < 8 → g.getD p 0 = c →
      (((feedbackRow g s).getD p 0 = 1) ↔
        (g.getD p 0 ≠ s.getD p 0 ∧
          nonMatchRank c g s p
            < min (nonMatchPositions c g s).length (remainingOf c g s))) ∧
      (g.getD p 0 ≠ s.getD p 0 →
        min (nonMatchPositions c g s).length (remainingOf c g s) ≤ nonMatchRank c g s p →
        (feedbackRow g s).getD p 0 = 0)) ∧
    (∀ s2 : List Nat, s2.length = 8 → s2.countP (fun x => x == 49) = 2 →
      (List.range 8).countP
        (fun p => !((feedbackRow (List.replicate 8 49) s2).getD p 0 == 0)) = 2) := by
  constructor
  · intro p hp hA
    have hv := feedbackRow_getD g s h8 hs8 p hp
    by_cases hm : g.getD p 0 = s.getD p 0
    · rw [if_pos hm] at hv
      constructor
      · rw [hv]
        constructor
        · intro h; omega
        · rintro ⟨hne, _⟩; exact absurd hm hne
      · intro hne; exact absurd hm hne
    · rw [if_neg hm] at hv
      have hmem : p ∈ nonMatchPositions c g s := by
        rw [mem_nonMatchPositions]
        refine ⟨by omega, hA, ?_⟩
        rw [greensRow_getD g s p (by omega) (by omega)]
        exact beq_eq_false_iff_ne.mpr hm
      have hlt := nonMatchRank_lt_length hmem
      rw [hA] at hv
      constructor
      · rw [hv]
        by_cases hr : nonMatchRank c g s p < remainingOf c g s
        · rw [if_pos hr]
          constructor
          · intro _
            exact ⟨hm, by omega⟩
          · intro _; rfl
        · rw [if_neg hr]
          constructor
          · intro h; omega
          · rintro ⟨_, hk⟩
            omega
      · intro _ hk
        rw [hv, if_neg (by omega)]
  · intro s2 hs2 hcount
    have hg8 : (List.replicate 8 (49 : Nat)).length = 8 := List.length_replicate _ _
    -- every occurrence of '1' in the secret is consumed by a match
    have hgreen2 : char_green_count 49 (List.replicate 8 49) s2
        = (List.range 8).countP (fun p => s2.getD p 0 == 49) := by
      rw [char_green_count, zip_eq_range_map _ s2 (by rw [hg8, hs2]), hg8]
      rw [show List.countP
          (fun x => (x.1 == x.2) && (x.2 == (49 : Nat)))
          (List.map (fun p => ((List.replicate 8 (49 : Nat)).getD p 0, s2.getD p 0))
            (List.range 8))
        = List.countP ((fun x => (x.1 == x.2) && (x.2 == (49 : Nat))) ∘
            (fun p => ((List.replicate 8 (49 : Nat)).getD p 0, s2.getD p 0)))
          (List.range 8) from List.countP_map _ _ _]
      apply List.countP_congr
      intro p hp
      rw [List.mem_range] at hp
      simp only [Function.comp_apply]
      rw [getD_replicate_49 hp]
      by_cases h49 : s2.getD p 0 = 49
      · rw [beq_iff_eq.mpr h49.symm, Bool.true_and]
      · rw [beq_eq_false_iff_ne.mpr (fun h => h49 h.symm), Bool.false_and,
          beq_eq_false_iff_ne.mpr h49]
    have hsec : (List.range 8).countP (fun p => s2.getD p 0 == 49)
        = char_in_secret_count 49 s2 := by
      rw [char_in_secret_count, ← hs2]
      exact countP_range_getD s2 (fun x => x == 49)
    have hrem0 : remainingOf 49 (List.replicate 8 49) s2 = 0 := by
      rw [remainingOf, hgreen2, hsec]
      omega
    rw [← hcount, ← hs2, ← countP_range_getD s2 (fun x => x == 49), hs2]
    apply List.countP_congr
    intro p hp
    rw [List.mem_range] at hp
    rw [feedbackRow_getD _ s2 hg8 hs2 p hp, getD_replicate_49 hp]
    by_cases hm : (49 : Nat) = s2.getD p 0
    · rw [if_pos hm, show (!((2 : Nat) == 0)) = true from rfl, ← hm]
      exact Iff.rfl
    · rw [if_neg hm, hrem0, if_neg (Nat.not_lt_zero _),
        show (!((0 : Nat) == 0)) = false from rfl,
        beq_eq_false_iff_ne.mpr (fun h => hm h.symm)]

theorem C2_witness :
    (([49, 49, 49, 50, 50, 50, 51, 52] : List Nat).length = 8 ∧
      ([49, 50, 57, 57, 57, 49, 57, 57] : List Nat).length = 8) ∧
    ((feedbackRow [49, 49, 49, 50, 50, 50, 51, 52] [49, 50, 57, 57, 57, 49, 57, 57]).getD 1 0 = 1 ↔
      (([49, 49, 49, 50, 50, 50, 51, 52] : List Nat).getD 1 0
          ≠ ([49, 50, 57, 57, 57, 49, 57, 57] : List Nat).getD 1 0 ∧
        nonMatchRank 49 [49, 49, 49, 50, 50, 50, 51, 52] [49, 50, 57, 57, 57, 49, 57, 57] 1
          < min (nonMatchPositions 49 [49, 49, 49, 50, 50, 50, 51, 52]
              [49, 50, 57, 57, 57, 49, 57, 57]).length
            (remainingOf 49 [49, 49, 49, 50, 50, 50, 51, 52] [49, 50, 57, 57, 57, 49, 57, 57]))) :=
  ⟨⟨by decide, by decide⟩,
    ((C2_purple_first_k [49, 49, 49, 50, 50, 50, 51, 52] [49, 50, 57, 57, 57, 49, 57, 57]
      (by decide) (by decide) 49).1 1 (by decide) (by decide)).1⟩

/-! ### The vectorized computation is pointwise -/

/-- Folding a lockstep update over all rows equals updating every row
independently: the vectorized masked assignments act on each secret's slice
of the state separately. -/
theorem foldl_map_batchStep (ps : List Nat) :
    ∀ sts : List RowState, ps.foldl (fun sts p => sts.map (batchStep p)) sts
      = sts.map (fun st => ps.foldl (fun st p => batchStep p st) st) := by
  induction ps with
  | nil =>
    intro sts
    simp
  | cons p ps ih =>
    intro sts
    rw [List.foldl_cons, ih, List.map_map]
    apply List.map_congr_left
    intro st _
    rw [Function.comp_apply, List.foldl_cons]

/-- On a single row, folding `batchStep` over the guess positions is the
sequential purple walk. -/
theorem batch_foldl_res (ps : List Nat) :
    ∀ (gr : List Bool) (rem asg : Nat) (res : List Nat),
      (ps.foldl (fun st p => batchStep p st) (RowState.mk gr rem asg res)).res
        = purpleWalk gr rem ps asg res := by
  induction ps with
  | nil => intro gr rem asg res; rfl
  | cons p ps ih =>
    intro gr rem asg res
    rw [List.foldl_cons]
    simp only [batchStep, purpleWalk]
    by_cases h : gr.getD p false = false ∧ asg < rem
    · rw [if_pos h, if_pos h]
      exact ih gr rem (asg + 1) (res.set p 1)
    · rw [if_neg h, if_neg h]
      exact ih gr rem asg res

/-- `compute_feedback` agrees with mapping the per-pair feedback over the
secret list: each output entry depends only on the guess and that secret. -/
theorem compute_feedback_eq_map (guess : List Nat) (all_secrets : List (List Nat)) :
    compute_feedback guess all_secrets = all_secrets.map (feedbackHash guess) := by
  suffices h : ∀ (L : List Nat) (F : List Nat → List Nat),
      L.foldl
        (fun res c =>
          ((positionsOf c guess).foldl (fun sts p => sts.map (batchStep p))
            (List.zipWith (fun (gr_rem : List Bool × Nat) r =>
                RowState.mk gr_rem.1 gr_rem.2 0 r)
              ((all_secrets.map (greensRow guess)).zip
                (all_secrets.map (fun s => remainingOf c guess s)))
              res)).map RowState.res)
        (all_secrets.map F)
      = all_secrets.map (fun s => L.foldl (charPass guess s) (F s)) by
    have hres0 : (all_secrets.map (greensRow guess)).map
        (fun gr => gr.map (fun b => if b then (2 : Nat) else 0))
        = all_secrets.map (fun s =>
            (greensRow guess s).map (fun b => if b then (2 : Nat) else 0)) := by
      rw [List.map_map]
      rfl
    simp only [compute_feedback]
    rw [hres0, h (uniqueChars guess)
      (fun s => (greensRow guess s).map (fun b => if b then (2 : Nat) else 0))]
    rw [List.map_map]
    rfl
  intro L
  induction L with
  | nil => intro F; rfl
  | cons c L ih =>
    intro F
    rw [List.foldl_cons]
    have hstates : List.zipWith (fun (gr_rem : List Bool × Nat) r =>
          RowState.mk gr_rem.1 gr_rem.2 0 r)
        ((all_secrets.map (greensRow guess)).zip
          (all_secrets.map (fun s => remainingOf c guess s)))
        (all_secrets.map F)
        = all_secrets.map (fun s =>
            RowState.mk (greensRow guess s) (remainingOf c guess s) 0 (F s)) := by
      rw [List.zip_map', List.zipWith_map_left, List.zipWith_map_right, List.zipWith_same]
    have hstep : ((positionsOf c guess).foldl (fun sts p => sts.map (batchStep p))
          (List.zipWith (fun (gr_rem : List Bool × Nat) r =>
              RowState.mk gr_rem.1 gr_rem.2 0 r)
            ((all_secrets.map (greensRow guess)).zip
              (all_secrets.map (fun s => remainingOf c guess s)))
            (all_secrets.map F))).map RowState.res
        = all_secrets.map (fun s => charPass guess s (F s) c) := by
      rw [hstates, foldl_map_batchStep, List.map_map, List.map_map]
      apply List.map_congr_left
      intro s _
      rw [Function.comp_apply, Function.comp_apply]
      exact batch_foldl_res (positionsOf c guess) (greensRow guess s)
        (remainingOf c guess s) 0 (F s)
    rw [hstep, ih (fun s => charPass guess s (F s) c)]
    apply List.map_congr_left
    intro s _
    rw [List.foldl_cons]

/-- C9: The batched feedback computation is pointwise: `compute_feedback`
equals the map of the per-pair feedback over the secret list, and if row i
of A equals row j of B then entry i of `compute_feedback guess A` equals
entry j of `compute_feedback guess B`. -/
theorem C9_pointwise (guess : List Nat) (A B : List (List Nat)) (i j : Nat)
    (hi : i < A.length) (hj : j < B.length) (hAB : A.getD i [] = B.getD j []) :
    (compute_feedback guess A).getD i 0 = (compute_feedback guess B).getD j 0 ∧
    compute_feedback guess A = A.map (feedbackHash guess) := by
  constructor
  · rw [compute_feedback_eq_map, compute_feedback_eq_map,
      List.getD_eq_getElem _ _ (by rw [List.length_map]; exact hi),
      List.getD_eq_getElem _ _ (by rw [List.length_map]; exact hj),
      List.getElem_map, List.getElem_map]
    congr 1
    rw [← List.getD_eq_getElem A [] hi, ← List.getD_eq_getElem B [] hj]
    exact hAB
  · exact compute_feedback_eq_map guess A

theorem C9_witness :
    (0 < ([[49, 50, 43, 51, 52, 61, 52, 54], [52, 56, 45, 49, 50, 61, 51, 54]] :
        List (List Nat)).length ∧
      1 < ([[57, 57, 57, 57, 57, 57, 57, 57], [49, 50, 43, 51, 52, 61, 52, 54]] :
        List (List Nat)).length ∧
      ([[49, 50, 43, 51, 52, 61, 52, 54], [52, 56, 45, 49, 50, 61, 51, 54]] :
        List (List Nat)).getD 0 []
        = ([[57, 57, 57, 57, 57, 57, 57, 57], [49, 50, 43, 51, 52, 61, 52, 54]] :
          List (List Nat)).getD 1 []) ∧
    ((compute_feedback [49, 50, 43, 51, 52, 61, 52, 54]
        [[49, 50, 43, 51, 52, 61, 52, 54], [52, 56, 45, 49, 50, 61, 51, 54]]).getD 0 0
      = (compute_feedback [49, 50, 43, 51, 52, 61, 52, 54]
        [[57, 57, 57, 57, 57, 57, 57, 57], [49, 50, 43, 51, 52, 61, 52, 54]]).getD 1 0 ∧
    compute_feedback [49, 50, 43, 51, 52, 61, 52, 54]
        [[49, 50, 43, 51, 52, 61, 52, 54], [52, 56, 45, 49, 50, 61, 51, 54]]
      = ([[49, 50, 43, 51, 52, 61, 52, 54], [52, 56, 45, 49, 50, 61, 51, 54]] :
        List (List Nat)).map (feedbackHash [49, 50, 43, 51, 52, 61, 52, 54])) :=
  ⟨⟨by decide, by decide, by decide⟩,
    C9_pointwise _ _ _ 0 1 (by decide) (by decide) (by decide)⟩

/-! ### Distinct-pattern counts and probabilities -/

/-- C4: For every guess, `num_patterns` equals the number of distinct
encoded feedback values produced across the candidates excluding the
all-match encoding, and the reported probability is `num_patterns / N`. -/
theorem C4_num_patterns (all_secrets : List (List Nat)) (guess : List Nat) :
    num_patterns all_secrets guess
      = ((compute_feedback guess all_secrets).toFinset.erase ALL_GREEN_HASH).card ∧
    ∀ gi, gi < all_secrets.length →
      (p_solve2 all_secrets).getD gi 0
        = (num_patterns all_secrets (all_secrets.getD gi []) : ℚ)
          / (all_secrets.length : ℚ) := by
  constructor
  · simp only [num_patterns]
    by_cases hmem : ALL_GREEN_HASH ∈ (compute_feedback guess all_secrets).dedup
    · rw [if_pos hmem,
        Finset.card_erase_of_mem (List.mem_toFinset.mpr (List.mem_dedup.mp hmem)),
        List.card_toFinset]
    · rw [if_neg hmem,
        Finset.erase_eq_of_not_mem
          (fun h => hmem (List.mem_dedup.mpr (List.mem_toFinset.mp h))),
        List.card_toFinset, Nat.sub_zero]
  · intro gi hgi
    simp only [p_solve2, num_patterns_list]
    rw [List.getD_eq_getElem _ _ (by rw [List.length_map, List.length_map]; exact hgi),
      List.getElem_map, List.getElem_map, List.getD_eq_getElem all_secrets [] hgi]

theorem C4_witness :
    (0 < ([[49, 50, 43, 51, 52, 61, 52, 54], [52, 56, 45, 49, 50, 61, 51, 54]] :
        List (List Nat)).length) ∧
    num_patterns [[49, 50, 43, 51, 52, 61, 52, 54], [52, 56, 45, 49, 50, 61, 51, 54]]
        [49, 50, 43, 51, 52, 61, 52, 54]
      = ((compute_feedback [49, 50, 43, 51, 52, 61, 52, 54]
          [[49, 50, 43, 51, 52, 61, 52, 54],
            [52, 56, 45, 49, 50, 61, 51, 54]]).toFinset.erase ALL_GREEN_HASH).card ∧
    (p_solve2 [[49, 50, 43, 51, 52, 61, 52, 54], [52, 56, 45, 49, 50, 61, 51, 54]]).getD 0 0
      = (num_patterns [[49, 50, 43, 51, 52, 61, 52, 54], [52, 56, 45, 49, 50, 61, 51, 54]]
          (([[49, 50, 43, 51, 52, 61, 52, 54], [52, 56, 45, 49, 50, 61, 51, 54]] :
            List (List Nat)).getD 0 []) : ℚ)
        / (([[49, 50, 43, 51, 52, 61, 52, 54], [52, 56, 45, 49, 50, 61, 51, 54]] :
            List (List Nat)).length : ℚ) :=
  ⟨by decide,
    (C4_num_patterns _ [49, 50, 43, 51, 52, 61, 52, 54]).1,
    (C4_num_patterns _ [49, 50, 43, 51, 52, 61, 52, 54]).2 0 (by decide)⟩

/-- C5: For a guess drawn from a duplicate-free candidate list of
8-character words with at least two entries, the distinct-pattern count
lies in [1, N-1] and the derived probability lies strictly between 0
and 1. -/
theorem C5_bounds (all_secrets : List (List Nat)) (guess : List Nat)
    (hlen : ∀ s ∈ all_secrets, s.length = 8) (hnd : all_secrets.Nodup)
    (hmem : guess ∈ all_secrets) (hN : 2 ≤ all_secrets.length) :
    1 ≤ num_patterns all_secrets guess ∧
    num_patterns all_secrets guess ≤ all_secrets.length - 1 ∧
    0 < (num_patterns all_secrets guess : ℚ) / (all_secrets.length : ℚ) ∧
    (num_patterns all_secrets guess : ℚ) / (all_secrets.length : ℚ) < 1 := by
  have hg8 : guess.length = 8 := hlen guess hmem
  have hmap := compute_feedback_eq_map guess all_secrets
  have hAGmem : ALL_GREEN_HASH ∈ compute_feedback guess all_secrets := by
    rw [hmap]
    exact List.mem_map.mpr
      ⟨guess, hmem, (feedbackHash_eq_allGreen_iff guess guess hg8 hg8).mpr rfl⟩
  have hother : ∃ s ∈ all_secrets, s ≠ guess := by
    by_contra hno
    push_neg at hno
    have hrep : all_secrets = List.replicate all_secrets.length guess := by
      rw [List.eq_replicate_iff]
      exact ⟨rfl, hno⟩
    rw [hrep, List.nodup_replicate] at hnd
    omega
  obtain ⟨s', hs'mem, hs'ne⟩ := hother
  have hs8 : s'.length = 8 := hlen s' hs'mem
  have hne : feedbackHash guess s' ≠ ALL_GREEN_HASH := by
    intro h
    exact hs'ne ((feedbackHash_eq_allGreen_iff guess s' hg8 hs8).mp h).symm
  have hs'h : feedbackHash guess s' ∈ compute_feedback guess all_secrets := by
    rw [hmap]
    exact List.mem_map.mpr ⟨s', hs'mem, rfl⟩
  have hsub : ({ALL_GREEN_HASH, feedbackHash guess s'} : Finset Nat)
      ⊆ (compute_feedback guess all_secrets).toFinset := by
    intro x hx
    rcases Finset.mem_insert.mp hx with h | h
    · subst h; exact List.mem_toFinset.mpr hAGmem
    · rw [Finset.mem_singleton] at h; subst h; exact List.mem_toFinset.mpr hs'h
  have hcard2 : 2 ≤ (compute_feedback guess all_secrets).toFinset.card := by
    have h := Finset.card_le_card hsub
    rw [Finset.card_pair (fun h2 => hne h2.symm)] at h
    exact h
  have hdedup2 : 2 ≤ (compute_feedback guess all_secrets).dedup.length := by
    rw [← List.card_toFinset]
    exact hcard2
  have hdedupN : (compute_feedback guess all_secrets).dedup.length
      ≤ all_secrets.length := by
    have h := (List.dedup_sublist (compute_feedback guess all_secrets)).length_le
    have hlenCF : (compute_feedback guess all_secrets).length = all_secrets.length := by
      rw [hmap, List.length_map]
    omega
  have hAGdedup : ALL_GREEN_HASH ∈ (compute_feedback guess all_secrets).dedup :=
    List.mem_dedup.mpr hAGmem
  have hnum : num_patterns all_secrets guess
      = (compute_feedback guess all_secrets).dedup.length - 1 := by
    simp only [num_patterns]
    rw [if_pos hAGdedup]
  have h1 : 1 ≤ num_patterns all_secrets guess := by omega
  have h2 : num_patterns all_secrets guess ≤ all_secrets.length - 1 := by omega
  have hNpos : (0 : ℚ) < (all_secrets.length : ℚ) := by
    exact_mod_cast (by omega : 0 < all_secrets.length)
  refine ⟨h1, h2, ?_, ?_⟩
  · apply div_pos _ hNpos
    exact_mod_cast (by omega : 0 < num_patterns all_secrets guess)
  · rw [div_lt_one hNpos]
    exact_mod_cast (by omega : num_patterns all_secrets guess < all_secrets.length)

theorem C5_witness :
    ((∀ s ∈ ([[49, 50, 43, 51, 52, 61, 52, 54], [52, 56, 45, 49, 50, 61, 51, 54]] :
        List (List Nat)), s.length = 8) ∧
      ([[49, 50, 43, 51, 52, 61, 52, 54], [52, 56, 45, 49, 50, 61, 51, 54]] :
        List (List Nat)).Nodup ∧
      ([49, 50, 43, 51, 52, 61, 52, 54] : List Nat)
        ∈ ([[49, 50, 43, 51, 52, 61, 52, 54], [52, 56, 45, 49, 50, 61, 51, 54]] :
          List (List Nat)) ∧
      2 ≤ ([[49, 50, 43, 51, 52, 61, 52, 54], [52, 56, 45, 49, 50, 61, 51, 54]] :
        List (List Nat)).length) ∧
    (1 ≤ num_patterns [[49, 50, 43, 51, 52, 61, 52, 54], [52, 56, 45, 49, 50, 61, 51, 54]]
        [49, 50, 43, 51, 52, 61, 52, 54] ∧
      num_patterns [[49, 50, 43, 51, 52, 61, 52, 54], [52, 56, 45, 49, 50, 61, 51, 54]]
          [49, 50, 43, 51, 52, 61, 52, 54]
        ≤ ([[49, 50, 43, 51, 52, 61, 52, 54], [52, 56, 45, 49, 50, 61, 51, 54]] :
            List (List Nat)).length - 1 ∧
      0 < (num_patterns [[49, 50, 43, 51, 52, 61, 52, 54], [52, 56, 45, 49, 50, 61, 51, 54]]
            [49, 50, 43, 51, 52, 61, 52, 54] : ℚ)
          / (([[49, 50, 43, 51, 52, 61, 52, 54], [52, 56, 45, 49, 50, 61, 51, 54]] :
              List (List Nat)).length : ℚ) ∧
      (num_patterns [[49, 50, 43, 51, 52, 61, 52, 54], [52, 56, 45, 49, 50, 61, 51, 54]]
            [49, 50, 43, 51, 52, 61, 52, 54] : ℚ)
          / (([[49, 50, 43, 51, 52, 61, 52, 54], [52, 56, 45, 49, 50, 61, 51, 54]] :
              List (List Nat)).length : ℚ) < 1) :=
  ⟨⟨by decide, by decide, by decide, by decide⟩,
    C5_bounds _ _ (by decide) (by decide) (by decide) (by decide)⟩

/-! ### Ranking -/

theorem rankOrder_length (all_secrets : List (List Nat)) :
    (rankOrder all_secrets).length = all_secrets.length := by
  rw [rankOrder]
  have h := (List.mergeSort_perm (List.range all_secrets.length)
    (fun i j => decide (-((p_solve2 all_secrets).getD i 0)
      ≤ -((p_solve2 all_secrets).getD j 0)))).length_eq
  rw [h, List.length_range]

theorem rankOrder_sorted (all_secrets : List (List Nat)) :
    (rankOrder all_secrets).Pairwise
      (fun a b => (decide (-((p_solve2 all_secrets).getD a 0)
        ≤ -((p_solve2 all_secrets).getD b 0))) = true) := by
  rw [rankOrder]
  apply List.sorted_mergeSort
  · intro a b c hab hbc
    rw [decide_eq_true_eq] at hab hbc ⊢
    exact le_trans hab hbc
  · intro a b
    rw [Bool.or_eq_true, decide_eq_true_eq, decide_eq_true_eq]
    exact le_total _ _

theorem csvRows_prob (all_secrets : List (List Nat)) (k : Nat)
    (hk : k < (rankOrder all_secrets).length) :
    ((csvRows all_secrets).getD k (0, [], 0, (0 : ℚ))).2.2.2
      = (p_solve2 all_secrets).getD ((rankOrder all_secrets).getD k 0) 0 := by
  have hk2 : k < ((rankOrder all_secrets).enum.map (fun ri =>
      (ri.1 + 1, all_secrets.getD ri.2 [],
       (num_patterns_list all_secrets).getD ri.2 0,
       (p_solve2 all_secrets).getD ri.2 0))).length := by
    rw [List.length_map, List.enum_length]
    exact hk
  simp only [csvRows]
  rw [List.getD_eq_getElem _ _ hk2, List.getElem_map, List.getElem_enum,
    List.getD_eq_getElem (rankOrder all_secrets) 0 hk]

/-- C6: The rows of the saved CSV table, ranked by `argsort(-p_solve2)`,
are sorted by descending probability: for ranks i ≤ j the probability in
row i is at least the probability in row j. -/
theorem C6_sorted (all_secrets : List (List Nat)) (i j : Nat) (hij : i ≤ j)
    (hj : j < (csvRows all_secrets).length) :
    ((csvRows all_secrets).getD j (0, [], 0, (0 : ℚ))).2.2.2
      ≤ ((csvRows all_secrets).getD i (0, [], 0, (0 : ℚ))).2.2.2 := by
  have hlen : (csvRows all_secrets).length = (rankOrder all_secrets).length := by
    rw [csvRows, List.length_map, List.enum_length]
  have hj' : j < (rankOrder all_secrets).length := by omega
  have hi' : i < (rankOrder all_secrets).length := by omega
  rw [csvRows_prob all_secrets i hi', csvRows_prob all_secrets j hj']
  rcases Nat.lt_or_ge i j with hlt | hge
  · have hsorted := rankOrder_sorted all_secrets
    rw [List.pairwise_iff_getElem] at hsorted
    have h := hsorted i j hi' hj' hlt
    rw [decide_eq_true_eq] at h
    rw [List.getD_eq_getElem (rankOrder all_secrets) 0 hi',
      List.getD_eq_getElem (rankOrder all_secrets) 0 hj']
    exact neg_le_neg_iff.mp h
  · have heq : i = j := by omega
    rw [heq]

theorem C6_witness :
    ((0 : Nat) ≤ 1 ∧
      1 < (csvRows [[49, 50, 43, 51, 52, 61, 52, 54],
        [52, 56, 45, 49, 50, 61, 51, 54]]).length) ∧
    ((csvRows [[49, 50, 43, 51, 52, 61, 52, 54], [52, 56, 45, 49, 50, 61, 51, 54]]).getD 1
        (0, [], 0, (0 : ℚ))).2.2.2
      ≤ ((csvRows [[49, 50, 43, 51, 52, 61, 52, 54],
          [52, 56, 45, 49, 50, 61, 51, 54]]).getD 0 (0, [], 0, (0 : ℚ))).2.2.2 :=
  ⟨⟨by decide,
      by rw [csvRows, List.length_map, List.enum_length, rankOrder_length]; decide⟩,
    C6_sorted _ 0 1 (by decide)
      (by rw [csvRows, List.length_map, List.enum_length, rankOrder_length]; decide)⟩

/-! ### Loader behaviour -/

theorem mem_stripped_entries (lines : List (List Char)) (s : List Char) :
    s ∈ (lines.map pyStrip).filter (fun t => !t.isEmpty) ↔
      (∃ line ∈ lines, pyStrip line = s) ∧ s ≠ [] := by
  rw [List.mem_filter, List.mem_map]
  constructor
  · rintro ⟨⟨line, hline, rfl⟩, hne⟩
    exact ⟨⟨line, hline, rfl⟩, by simpa [List.isEmpty_iff] using hne⟩
  · rintro ⟨⟨line, hline, rfl⟩, hne⟩
    exact ⟨⟨line, hline, rfl⟩, by simpa [List.isEmpty_iff] using hne⟩

/-- C7: `load_solutions` fails with the assertion message naming an
offending record exactly when some stripped non-blank entry of the input
has length different from 8; otherwise it returns the validated entries in
source order. -/
theorem C7_load_solutions (lines : List (List Char)) :
    ((∃ msg, load_solutions lines = Except.error msg) ↔
      ∃ line ∈ lines, pyStrip line ≠ [] ∧ (pyStrip line).length ≠ 8) ∧
    (∀ msg, load_solutions lines = Except.error msg →
      ∃ bad ∈ (lines.map pyStrip).filter (fun s => !s.isEmpty),
        bad.length ≠ 8 ∧ msg = assertMessage bad) ∧
    (∀ l, load_solutions lines = Except.ok l →
      l = (lines.map pyStrip).filter (fun s => !s.isEmpty) ∧ ∀ s ∈ l, s.length = 8) := by
  simp only [load_solutions]
  cases hfind : ((lines.map pyStrip).filter (fun s => !s.isEmpty)).find?
      (fun s => s.length != 8) with
  | none =>
    have hall := List.find?_eq_none.mp hfind
    refine ⟨⟨?_, ?_⟩, ?_, ?_⟩
    · rintro ⟨msg, hmsg⟩
      exact Except.noConfusion hmsg
    · rintro ⟨line, hline, hne, hlen⟩
      exfalso
      have hmem : pyStrip line ∈ (lines.map pyStrip).filter (fun s => !s.isEmpty) :=
        (mem_stripped_entries lines _).mpr ⟨⟨line, hline, rfl⟩, hne⟩
      have h8 : (pyStrip line).length = 8 := by simpa using hall _ hmem
      exact hlen h8
    · intro msg hmsg
      exact Except.noConfusion hmsg
    · intro l hl
      injection hl with h
      subst h
      refine ⟨rfl, ?_⟩
      intro s hs
      simpa using hall s hs
  | some bad =>
    have hbadmem := List.mem_of_find?_eq_some hfind
    have hbadpred := List.find?_some hfind
    rw [bne_iff_ne] at hbadpred
    obtain ⟨⟨line0, hline0, hstrip0⟩, hbadne⟩ :=
      (mem_stripped_entries lines bad).mp hbadmem
    refine ⟨⟨?_, ?_⟩, ?_, ?_⟩
    · intro _
      exact ⟨line0, hline0, by rw [hstrip0]; exact hbadne, by rw [hstrip0]; exact hbadpred⟩
    · intro _
      exact ⟨assertMessage bad, rfl⟩
    · intro msg hmsg
      injection hmsg with h
      exact ⟨bad, hbadmem, hbadpred, h.symm⟩
    · intro l hl
      exact Except.noConfusion hl

theorem C7_witness :
    (([[('4' : Char), '8', '-', '1', '2', '=', '3', '6']] :
        List (List Char)).map pyStrip).filter (fun s => !s.isEmpty)
        = [[('4' : Char), '8', '-', '1', '2', '=', '3', '6']] ∧
      ∀ s ∈ ([[('4' : Char), '8', '-', '1', '2', '=', '3', '6']] : List (List Char)),
        s.length = 8 := by
  have h := (C7_load_solutions [[('4' : Char), '8', '-', '1', '2', '=', '3', '6']]).2.2
    [[('4' : Char), '8', '-', '1', '2', '=', '3', '6']] (by rfl)
  exact ⟨h.1.symm, h.2⟩

/-- C10: at its public interface the loader strips each line before
validating: a whitespace-only line is silently skipped (in particular it is
not a length error), and a line padded with whitespace to raw length 8 is
validated against its stripped length and rejected when that differs
from 8, with the stripped record in the assertion message. -/
theorem C10_strip_skip (line : List Char) (lines : List (List Char)) :
    (pyStrip line = [] → load_solutions (line :: lines) = load_solutions lines) ∧
    (line.length = 8 → pyStrip line ≠ [] → (pyStrip line).length ≠ 8 →
      load_solutions (line :: lines) = Except.error (assertMessage (pyStrip line))) := by
  constructor
  · intro hblank
    simp only [load_solutions, List.map_cons, List.filter_cons]
    rw [hblank, show (!(([] : List Char).isEmpty)) = false from rfl,
      if_neg Bool.false_ne_true]
  · intro _hraw hne hlen
    simp only [load_solutions, List.map_cons, List.filter_cons]
    have hcond : (!(pyStrip line).isEmpty) = true := by
      simp [List.isEmpty_iff, hne]
    rw [if_pos hcond, List.find?_cons_of_pos _ (by rw [bne_iff_ne]; exact hlen)]

theorem C10_witness :
    pyStrip [(' ' : Char), ' ', '\n'] = [] ∧
    load_solutions [[(' ' : Char), ' ', '\n'],
        [(' ' : Char), '1', '+', '2', '=', '3', ' ', '\n']]
      = load_solutions [[(' ' : Char), '1', '+', '2', '=', '3', ' ', '\n']] ∧
    ([(' ' : Char), '1', '+', '2', '=', '3', ' ', '\n'] : List Char).length = 8 ∧
    load_solutions [[(' ' : Char), '1', '+', '2', '=', '3', ' ', '\n']]
      = Except.error (assertMessage (pyStrip [(' ' : Char), '1', '+', '2', '=', '3', ' ', '\n'])) :=
  ⟨by decide,
    (C10_strip_skip [(' ' : Char), ' ', '\n']
      [[(' ' : Char), '1', '+', '2', '=', '3', ' ', '\n']]).1 (by decide),
    by decide,
    (C10_strip_skip [(' ' : Char), '1', '+', '2', '=', '3', ' ', '\n'] []).2
      (by decide) (by decide) (by decide)⟩

/-! ### Missing or unreadable input -/

set_option maxRecDepth 8192 in
/-- C8 counterexample: an existing but unreadable input refutes the claim
as stated.  The `os.path.exists` check passes, `open` raises an uncaught
`PermissionError`, so the program does exit fatally with no output rows —
but the reported message does not name the external source to obtain the
file. -/
theorem C8_counterexample :
    (Env.mk true false [('/' : Char), 't', 'm', 'p'] []).readable = false ∧
    mainModel (Env.mk true false [('/' : Char), 't', 'm', 'p'] [])
      = Except.error (permissionMessage ([('/' : Char), 't', 'm', 'p']
          ++ ('/' :: dataFileName))) ∧
    ¬ ∃ u v, u ++ sourceURL ++ v
        = permissionMessage ([('/' : Char), 't', 'm', 'p'] ++ ('/' :: dataFileName)) := by
  refine ⟨rfl, rfl, ?_⟩
  rintro ⟨u, v, huv⟩
  have hni : ¬ (sourceURL <:+: permissionMessage ([('/' : Char), 't', 'm', 'p']
      ++ ('/' :: dataFileName))) := by decide
  exact hni ⟨u, v, huv⟩

/-- C8 (amended): On a missing or unreadable input source the program
exits fatally with a message naming the expected file, and performs no
computation and writes no output table; when the source is missing the
message additionally names an external source to obtain it (when the
source exists but is unreadable, the fatal message is the uncaught
`PermissionError` of `open`, which does not name the external source). -/
theorem C8_fatal_input_errors (env : Env) :
    (env.pathExists = false →
      mainModel env
        = Except.error (missingMessage (env.scriptDir ++ ('/' :: dataFileName))) ∧
      (∃ u v, u ++ dataFileName ++ v
        = missingMessage (env.scriptDir ++ ('/' :: dataFileName))) ∧
      (∃ u v, u ++ sourceURL ++ v
        = missingMessage (env.scriptDir ++ ('/' :: dataFileName)))) ∧
    (env.pathExists = true → env.readable = false →
      mainModel env
        = Except.error (permissionMessage (env.scriptDir ++ ('/' :: dataFileName))) ∧
      (∃ u v, u ++ dataFileName ++ v
        = permissionMessage (env.scriptDir ++ ('/' :: dataFileName)))) := by
  constructor
  · intro hmiss
    refine ⟨?_, ?_, ?_⟩
    · simp only [mainModel]
      rw [hmiss, if_pos rfl]
    · refine ⟨("ERROR: ").toList ++ env.scriptDir ++ ['/'],
        (" not found. Download it from https://github.com/pedrokkrause/Nerdle-Equations").toList,
        ?_⟩
      rw [missingMessage, show ('/' :: dataFileName) = ['/'] ++ dataFileName from rfl]
      simp [List.append_assoc]
    · refine ⟨("ERROR: ").toList ++ (env.scriptDir ++ ('/' :: dataFileName))
        ++ (" not found. Download it from ").toList, [], ?_⟩
      rw [missingMessage,
        show (" not found. Download it from https://github.com/pedrokkrause/Nerdle-Equations").toList
          = (" not found. Download it from ").toList ++ sourceURL from rfl]
      simp [List.append_assoc]
  · intro hex hunread
    constructor
    · simp only [mainModel]
      rw [hex, hunread, if_neg (by simp), if_pos rfl]
    · refine ⟨("PermissionError: [Errno 13] Permission denied: '").toList
        ++ env.scriptDir ++ ['/'], ("'").toList, ?_⟩
      rw [permissionMessage, show ('/' :: dataFileName) = ['/'] ++ dataFileName from rfl]
      simp [List.append_assoc]

theorem C8_witness :
    ((Env.mk false true [('/' : Char), 't', 'm', 'p'] []).pathExists = false ∧
      mainModel (Env.mk false true [('/' : Char), 't', 'm', 'p'] [])
        = Except.error (missingMessage ([('/' : Char), 't', 'm', 'p']
            ++ ('/' :: dataFileName)))) ∧
    ((Env.mk true false [('/' : Char), 't', 'm', 'p'] []).pathExists = true ∧
      (Env.mk true false [('/' : Char), 't', 'm', 'p'] []).readable = false ∧
      mainModel (Env.mk true false [('/' : Char), 't', 'm', 'p'] [])
        = Except.error (permissionMessage ([('/' : Char), 't', 'm', 'p']
            ++ ('/' :: dataFileName)))) :=
  ⟨⟨rfl, ((C8_fatal_input_errors
      (Env.mk false true [('/' : Char), 't', 'm', 'p'] [])).1 rfl).1⟩,
    ⟨rfl, rfl, ((C8_fatal_input_errors
      (Env.mk true false [('/' : Char), 't', 'm', 'p'] [])).2 rfl rfl).1⟩⟩

end NerdleSolveInTwo
